import Mathlib

/-!
Shallow embedding of the ATR / stop-helper core of `src/app.py`.

The core is three pure functions: `compute_atr` (Wilder-style ATR on a
daily OHLC frame, via `tr.ewm(span=period, adjust=False).mean()`),
`intraday_tod_factor` / `atr_5m_from_daily` (time-of-day scaling of the
daily ATR down to a 5-minute ATR), and `compute_example_stops` (selects
the second-to-last intraday bar and derives long/short stops).

Prices are modelled as exact rationals (`ℚ`); the irrational
square-root scaling factor and everything downstream of it lives in
`ℝ`.  Failures (an `.iloc[-1]` on an empty frame raising, `None`
returns) are modelled with `Option`.
-/

namespace AtrApp

/-- A daily OHLC bar.  Only the columns read by `compute_atr` are kept
(the `Open` column of the frame is never used by the core). -/
structure Bar where
  high : ℚ
  low : ℚ
  close : ℚ
deriving DecidableEq

/-- Local wall-clock time of day.  Python `datetime.time` values compare
lexicographically by (hour, minute, second); the code only ever compares
against whole-minute boundaries, so microseconds are irrelevant. -/
structure TimeOfDay where
  hour : ℕ
  minute : ℕ
  second : ℕ
deriving DecidableEq

/-- Python `t < s` on `datetime.time` values: lexicographic comparison. -/
def TimeOfDay.lexLt (t s : TimeOfDay) : Prop :=
  t.hour < s.hour ∨ (t.hour = s.hour ∧
    (t.minute < s.minute ∨ (t.minute = s.minute ∧ t.second < s.second)))

instance (t s : TimeOfDay) : Decidable (t.lexLt s) := by
  unfold TimeOfDay.lexLt
  infer_instance

/-- Seconds since local midnight. -/
def TimeOfDay.toSeconds (t : TimeOfDay) : ℕ :=
  t.hour * 3600 + t.minute * 60 + t.second

/-- A bar timestamp: a calendar date (as an ordinal day number) plus a
local time of day, mirroring a timezone-localized pandas timestamp
(`last_bar.name` in the source). -/
structure Timestamp where
  date : ℤ
  time : TimeOfDay
deriving DecidableEq

/-- An intraday 5-minute OHLC bar together with its timestamp. -/
structure IBar where
  ts : Timestamp
  high : ℚ
  low : ℚ
  close : ℚ
deriving DecidableEq

/-- One row of the true-range frame
`pd.concat([tr0, tr1, tr2], axis=1).max(axis=1)` in `compute_atr`.
For the first row the shifted close (`close.shift(1)`) is missing
(`NaN`), and the pandas row-wise `max` skips missing entries by
default, leaving just `high - low` for that row. -/
def rowTR (b : Bar) (prevClose : Option ℚ) : ℚ :=
  match prevClose with
  | none => b.high - b.low
  | some c => max (b.high - b.low) (max |b.high - c| |b.low - c|)

/-- The true-range series of `compute_atr`: row `i` of the daily frame
is paired with the close shifted down by one position
(`close.shift(1)`), which is missing at row 0. -/
def trSeries (daily : List Bar) : List ℚ :=
  List.zipWith rowTR daily (none :: daily.map fun b => some b.close)

/-- One step of `tr.ewm(span=period, adjust=False).mean()`:
`y[i] = alpha * x[i] + (1 - alpha) * y[i-1]`. -/
def ewmaStep (alpha acc x : ℚ) : ℚ :=
  alpha * x + (1 - alpha) * acc

/-- The last value of the `adjust=False` exponentially-weighted moving
average seeded at `x0` (pandas seeds the recursion with the first
element of the series). -/
def ewmaLast (alpha x0 : ℚ) (xs : List ℚ) : ℚ :=
  xs.foldl (ewmaStep alpha) x0

/-- Function `compute_atr` of `src/app.py`: true-range series followed
by `tr.ewm(span=period, adjust=False).mean()`, returning
`atr.iloc[-1]`.  On an empty frame `.iloc[-1]` raises (an indexing
error), modelled as `none`.  The smoothing weight of `span=period` is
`alpha = 2 / (period + 1)`. -/
def compute_atr (daily : List Bar) (period : ℕ) : Option ℚ :=
  match trSeries daily with
  | [] => none
  | t :: rest => some (ewmaLast (2 / ((period : ℚ) + 1)) t rest)

/-- True range as the spec words it, for bars `i ≥ 1` only:
`TR[i] = max(high[i]-low[i], |high[i]-close[i-1]|, |low[i]-close[i-1]|)`. -/
def specTR (prevClose : ℚ) (b : Bar) : ℚ :=
  max (b.high - b.low) (max |b.high - prevClose| |b.low - prevClose|)

/-- The spec's TR series: defined for bars `i ≥ 1` only — the first bar
is excluded ("no TR defined for it"). -/
def specTRSeries : List Bar → List ℚ
  | a :: b :: rest => specTR a.close b :: specTRSeries (b :: rest)
  | _ => []

/-- The ATR computation exactly as the spec words it: EWMA with weight
`alpha = 2/(N+1)` over the spec's TR series (first bar excluded),
seeded by the first available TR value, returning the value at the most
recent bar.  Used to compare the spec's description against
`compute_atr`. -/
def atr_spec (daily : List Bar) (period : ℕ) : Option ℚ :=
  match specTRSeries daily with
  | [] => none
  | t :: rest => some (ewmaLast (2 / ((period : ℚ) + 1)) t rest)

/-- Function `intraday_tod_factor` of `src/app.py`: the U-shaped
time-of-day factor, a chain of strict comparisons of
`timestamp.time()` against fixed local times. -/
def intraday_tod_factor (timestamp : Timestamp) : ℚ :=
  if timestamp.time.lexLt ⟨10, 0, 0⟩ then 1.4
  else if timestamp.time.lexLt ⟨11, 0, 0⟩ then 1.15
  else if timestamp.time.lexLt ⟨13, 0, 0⟩ then 0.85
  else if timestamp.time.lexLt ⟨14, 30, 0⟩ then 1.0
  else 1.3

/-- Function `atr_5m_from_daily` of `src/app.py`:
`baseline_factor = sqrt(5/390)`, `baseline_5m = atr_daily *
baseline_factor`, result `baseline_5m * intraday_tod_factor(ts)`
(the two intermediate bindings are inlined here). -/
noncomputable def atr_5m_from_daily (atr_daily : ℚ) (ts : Timestamp) : ℝ :=
  (atr_daily : ℝ) * Real.sqrt (5 / 390) * (intraday_tod_factor ts : ℝ)

/-- The result record of `compute_example_stops`, mirroring the dict it
returns.  The `ticker` string of the source is omitted: it is
pass-through request data (`ticker.upper()`), not part of the numeric
computation. -/
structure StopResult where
  timestamp : Timestamp
  entry_price : ℚ
  swing_low : ℚ
  swing_high : ℚ
  atr_daily : ℚ
  atr_5m : ℝ
  k_atr : ℝ
  stop_long : ℝ
  dist_long : ℝ
  stop_short : ℝ
  dist_short : ℝ

/-- The computational core of `compute_example_stops` in `src/app.py`,
with the two pre-fetched bar series passed in explicitly (the source
obtains them from `download_data`, an out-of-scope network
collaborator).  It mirrors the source line by line: `None` when either
frame is empty, daily ATR with period 14, `None` when fewer than two
intraday bars exist, then the second-to-last intraday bar
(`intra.iloc[-2]`) supplies the timestamp, entry (close), swing low and
swing high, from which the long/short stops and distances are built. -/
noncomputable def compute_example_stops (daily : List Bar) (intra : List IBar)
    (k_atr : ℝ) : Option StopResult :=
  if daily.isEmpty || intra.isEmpty then none
  else
    match compute_atr daily 14 with
    | none => none
    | some atr_daily =>
      if intra.length < 2 then none
      else
        match intra.get? (intra.length - 2) with
        | none => none
        | some last_bar =>
          let ts := last_bar.ts
          let entry := last_bar.close
          let swing_low := last_bar.low
          let swing_high := last_bar.high
          let atr_5m := atr_5m_from_daily atr_daily ts
          let stop_long := (swing_low : ℝ) - k_atr * atr_5m
          let dist_long := (entry : ℝ) - stop_long
          let stop_short := (swing_high : ℝ) + k_atr * atr_5m
          let dist_short := stop_short - (entry : ℝ)
          some { timestamp := ts, entry_price := entry, swing_low := swing_low,
                 swing_high := swing_high, atr_daily := atr_daily, atr_5m := atr_5m,
                 k_atr := k_atr, stop_long := stop_long, dist_long := dist_long,
                 stop_short := stop_short, dist_short := dist_short }

/-- Modelled from the spec: `src/app.py` contains no dollar-risk or
share-count code at all; section 4.3 of the spec describes an optional
dollar-risk budget with `shares = dollar_risk / dist`, computed exactly
when the budget is strictly positive and the corresponding stop
distance is strictly positive, and omitted (not zero) otherwise. -/
noncomputable def sharesFor (dollar_risk : Option ℝ) (dist : ℝ) : Option ℝ :=
  match dollar_risk with
  | none => none
  | some r => if 0 < r ∧ 0 < dist then some (r / dist) else none

/-- Modelled from the spec: the stop result extended with the optional
dollar-risk input and the optional share counts of section 4.3, which
are absent from `src/app.py`. -/
structure RiskResult where
  base : StopResult
  dollar_risk : Option ℝ
  shares_long : Option ℝ
  shares_short : Option ℝ

/-- Modelled from the spec: the composed operation with the optional
dollar-risk budget (absent from `src/app.py`), attaching the share
counts of section 4.3 on top of the code's `compute_example_stops`. -/
noncomputable def compute_example_stops_with_risk (daily : List Bar) (intra : List IBar)
    (k_atr : ℝ) (dollar_risk : Option ℝ) : Option RiskResult :=
  (compute_example_stops daily intra k_atr).map fun res =>
    { base := res, dollar_risk := dollar_risk,
      shares_long := sharesFor dollar_risk res.dist_long,
      shares_short := sharesFor dollar_risk res.dist_short }

/-! ### Helper lemmas -/

/-- Unfolding lemma for `compute_atr` on a nonempty series: the first
true-range row is `high - low` of the first bar (the shifted close is
missing there and the row-wise max skips it), and the EWMA is seeded
with it. -/
theorem compute_atr_cons (b : Bar) (tl : List Bar) (period : ℕ) :
    compute_atr (b :: tl) period =
      some (ewmaLast (2 / ((period : ℚ) + 1)) (b.high - b.low)
        (List.zipWith rowTR tl ((b :: tl).map fun x => some x.close))) := rfl

/-- The tail of the code's TR series coincides with the spec's TR
series: from bar 1 on, both compute
`max(high-low, |high - prev close|, |low - prev close|)`. -/
theorem zipWith_rowTR_eq_specTRSeries (tl : List Bar) (prev : Bar) :
    List.zipWith rowTR tl ((prev :: tl).map fun x => some x.close) =
      specTRSeries (prev :: tl) := by
  induction tl generalizing prev with
  | nil => rfl
  | cons b tl2 ih =>
    show rowTR b (some prev.close) ::
        List.zipWith rowTR tl2 ((b :: tl2).map fun x => some x.close) =
      specTR prev.close b :: specTRSeries (b :: tl2)
    rw [ih b]
    rfl

/-- A true-range row is nonnegative whenever the bar satisfies
`low ≤ high`. -/
theorem rowTR_nonneg (b : Bar) (pc : Option ℚ) (hb : b.low ≤ b.high) :
    0 ≤ rowTR b pc := by
  have h : (0 : ℚ) ≤ b.high - b.low := by linarith
  cases pc with
  | none => exact h
  | some c => exact le_trans h (le_max_left _ _)

/-- Every entry of a zipped true-range series is nonnegative when every
bar satisfies `low ≤ high`. -/
theorem zipWith_rowTR_nonneg :
    ∀ (l : List Bar) (cs : List (Option ℚ)), (∀ b ∈ l, b.low ≤ b.high) →
      ∀ x ∈ List.zipWith rowTR l cs, 0 ≤ x := by
  intro l
  induction l with
  | nil =>
    intro cs _ x hx
    simp [List.zipWith] at hx
  | cons b tl ih =>
    intro cs hb x hx
    cases cs with
    | nil => simp [List.zipWith] at hx
    | cons c cs2 =>
      rw [List.zipWith_cons_cons] at hx
      rcases List.mem_cons.mp hx with h | h
      · exact h ▸ rowTR_nonneg b c (hb b (List.mem_cons_self b tl))
      · exact ih cs2 (fun y hy => hb y (List.mem_cons_of_mem b hy)) x h

/-- The `adjust=False` EWMA of nonnegative data with weight in `[0, 1]`
stays nonnegative. -/
theorem ewmaLast_nonneg (alpha : ℚ) (h0 : 0 ≤ alpha) (h1 : alpha ≤ 1) :
    ∀ (xs : List ℚ) (x0 : ℚ), 0 ≤ x0 → (∀ x ∈ xs, 0 ≤ x) →
      0 ≤ ewmaLast alpha x0 xs := by
  intro xs
  induction xs with
  | nil => intro x0 hx _; exact hx
  | cons x xs2 ih =>
    intro x0 hx hall
    have hstep : 0 ≤ ewmaStep alpha x0 x := by
      have hx1 : 0 ≤ x := hall x (List.mem_cons_self x xs2)
      have h1m : 0 ≤ 1 - alpha := by linarith
      have := add_nonneg (mul_nonneg h0 hx1) (mul_nonneg h1m hx)
      simpa [ewmaStep] using this
    exact ih (ewmaStep alpha x0 x) hstep fun y hy => hall y (List.mem_cons_of_mem x hy)

/-- The `adjust=False` EWMA with weight in `[0, 1]` is monotone in the
seed and in each data point. -/
theorem ewmaLast_mono (alpha : ℚ) (h0 : 0 ≤ alpha) (h1 : alpha ≤ 1) :
    ∀ {xs ys : List ℚ}, List.Forall₂ (· ≤ ·) xs ys →
      ∀ x0 y0, x0 ≤ y0 → ewmaLast alpha x0 xs ≤ ewmaLast alpha y0 ys := by
  intro xs ys h
  induction h with
  | nil => intro x0 y0 hxy; exact hxy
  | @cons a b l1 l2 hab _ ih =>
    intro x0 y0 hxy
    have hstep : ewmaStep alpha x0 a ≤ ewmaStep alpha y0 b := by
      have h1m : 0 ≤ 1 - alpha := by linarith
      have := add_le_add (mul_le_mul_of_nonneg_left hab h0)
        (mul_le_mul_of_nonneg_left hxy h1m)
      simpa [ewmaStep] using this
    exact ih (ewmaStep alpha x0 a) (ewmaStep alpha y0 b) hstep

/-- On inputs that pass all its guards, `compute_example_stops` returns
exactly the record built from the second-to-last intraday bar. -/
theorem compute_example_stops_some (daily : List Bar) (intra : List IBar) (k : ℝ)
    (hd : daily ≠ []) (h2 : 2 ≤ intra.length) :
    ∃ bar atrd, intra.get? (intra.length - 2) = some bar ∧
      compute_atr daily 14 = some atrd ∧
      compute_example_stops daily intra k = some
        { timestamp := bar.ts
          entry_price := bar.close
          swing_low := bar.low
          swing_high := bar.high
          atr_daily := atrd
          atr_5m := atr_5m_from_daily atrd bar.ts
          k_atr := k
          stop_long := (bar.low : ℝ) - k * atr_5m_from_daily atrd bar.ts
          dist_long := (bar.close : ℝ) - ((bar.low : ℝ) - k * atr_5m_from_daily atrd bar.ts)
          stop_short := (bar.high : ℝ) + k * atr_5m_from_daily atrd bar.ts
          dist_short := ((bar.high : ℝ) + k * atr_5m_from_daily atrd bar.ts) - (bar.close : ℝ) } := by
  obtain ⟨b, tl, rfl⟩ := List.exists_cons_of_ne_nil hd
  cases intra with
  | nil => simp at h2
  | cons i ir =>
    have hlt : (i :: ir).length - 2 < (i :: ir).length := by
      simp only [List.length_cons]
      omega
    refine ⟨(i :: ir).get ⟨(i :: ir).length - 2, hlt⟩, _, List.get?_eq_get hlt,
      compute_atr_cons b tl 14, ?_⟩
    simp only [compute_example_stops, compute_atr_cons, List.isEmpty_cons, Bool.or_self,
      Bool.false_eq_true, if_false]
    rw [if_neg (by omega), List.get?_eq_get hlt]

/-! ### Claim C1 -/

/-- Claim C1 as stated is false on the code: on this two-bar series the
code's ATR (first bar included in the TR series with
`TR[0] = high[0]-low[0]`, EWMA seeded there) differs from the
spec-described ATR (first bar excluded, EWMA seeded at `TR[1]`).
Concretely `compute_atr` gives `2/15 * 1 + 13/15 * 10 = 44/5`, while
the spec's description gives `1`. -/
theorem atr_first_bar_counterexample :
    compute_atr [(⟨10, 0, 5⟩ : Bar), ⟨6, 5, 5⟩] 14 ≠
      atr_spec [(⟨10, 0, 5⟩ : Bar), ⟨6, 5, 5⟩] 14 := by
  norm_num [compute_atr, atr_spec, trSeries, specTRSeries, rowTR, specTR, ewmaLast,
    ewmaStep, List.zipWith, List.foldl, List.map, max_def, abs_one, abs_zero]

/-- Claim C1, amended: for a daily series with at least 2 bars,
`compute_atr` computes the spec's `TR[i]` for every bar `i ≥ 1`, but it
does not exclude the first bar: the TR series additionally starts with
`high[0] - low[0]` (the pandas row-wise max skips the missing shifted
close), and the EWMA with weight `2/(N+1)` is seeded by that first-bar
value rather than by `TR[1]`; the smoothed value at the most recent bar
is returned. -/
theorem compute_atr_includes_first_bar (period : ℕ) (b : Bar) (tl : List Bar)
    (_h2 : 2 ≤ (b :: tl).length) :
    compute_atr (b :: tl) period =
      some (ewmaLast (2 / ((period : ℚ) + 1)) (b.high - b.low)
        (specTRSeries (b :: tl))) := by
  rw [compute_atr_cons, zipWith_rowTR_eq_specTRSeries]

/-- Witness for the amended C1 at a concrete two-bar series. -/
theorem compute_atr_includes_first_bar_witness :
    2 ≤ ([(⟨10, 0, 5⟩ : Bar), ⟨6, 5, 5⟩] : List Bar).length ∧
      compute_atr [(⟨10, 0, 5⟩ : Bar), ⟨6, 5, 5⟩] 14 =
        some (ewmaLast (2 / (((14 : ℕ) : ℚ) + 1)) ((10 : ℚ) - 0)
          (specTRSeries [(⟨10, 0, 5⟩ : Bar), ⟨6, 5, 5⟩])) :=
  ⟨by decide, compute_atr_includes_first_bar 14 ⟨10, 0, 5⟩ [⟨6, 5, 5⟩] (by decide)⟩

/-! ### Claim C3 -/

/-- Claim C3 as stated is false on the code: a single-bar daily series
does not fail — `compute_atr` returns the numeric value
`high - low` of that bar (here `10 - 4 = 6`). -/
theorem single_bar_atr_counterexample :
    compute_atr [(⟨10, 4, 7⟩ : Bar)] 14 = some 6 := by
  norm_num [compute_atr, trSeries, rowTR, ewmaLast, List.zipWith, List.map, List.foldl]

/-- Claim C3, amended: `compute_atr` fails (the `.iloc[-1]` indexing
error, modelled as `none`) exactly when the daily series is empty; a
single-bar series is not rejected — it returns `high - low` of that
bar. -/
theorem compute_atr_failure_behavior :
    (∀ (period : ℕ) (daily : List Bar), compute_atr daily period = none ↔ daily = []) ∧
    (∀ (period : ℕ) (b : Bar), compute_atr [b] period = some (b.high - b.low)) := by
  constructor
  · intro period daily
    cases daily with
    | nil => simp [compute_atr, trSeries]
    | cons b tl => simp [compute_atr_cons]
  · intro period b
    rfl

/-! ### Claim C2 -/

/-- Claim C2: with at least 2 intraday bars (and a nonempty daily
series, needed for the daily ATR step that precedes the bar selection),
the calculator selects exactly the second-to-last intraday bar, sets
`entry = close`, `swing_low = low`, `swing_high = high` of that bar,
and produces `stop_long = swing_low - k * atr_5m`,
`dist_long = entry - stop_long`, `stop_short = swing_high + k * atr_5m`,
`dist_short = stop_short - entry`. -/
theorem stops_use_second_to_last_bar (daily : List Bar) (intra : List IBar) (k : ℝ)
    (hd : daily ≠ []) (h2 : 2 ≤ intra.length) :
    ∃ bar res, intra.get? (intra.length - 2) = some bar ∧
      compute_example_stops daily intra k = some res ∧
      res.timestamp = bar.ts ∧
      res.entry_price = bar.close ∧
      res.swing_low = bar.low ∧
      res.swing_high = bar.high ∧
      res.stop_long = (bar.low : ℝ) - k * res.atr_5m ∧
      res.dist_long = (bar.close : ℝ) - res.stop_long ∧
      res.stop_short = (bar.high : ℝ) + k * res.atr_5m ∧
      res.dist_short = res.stop_short - (bar.close : ℝ) := by
  obtain ⟨bar, atrd, hbar, hatr, heq⟩ := compute_example_stops_some daily intra k hd h2
  exact ⟨bar, _, hbar, heq, rfl, rfl, rfl, rfl, rfl, rfl, rfl, rfl⟩

/-- Witness for C2 at concrete series: one daily bar and two intraday
bars, with every hypothesis discharged. -/
theorem stops_use_second_to_last_bar_witness :
    (compute_example_stops [(⟨10, 4, 7⟩ : Bar)]
      [⟨⟨0, ⟨9, 45, 0⟩⟩, 101, 99, 100⟩, ⟨⟨0, ⟨9, 50, 0⟩⟩, 102, 98, 101⟩] 1).isSome = true := by
  obtain ⟨bar, res, hbar, heq, hrest⟩ :=
    stops_use_second_to_last_bar [(⟨10, 4, 7⟩ : Bar)]
      [⟨⟨0, ⟨9, 45, 0⟩⟩, 101, 99, 100⟩, ⟨⟨0, ⟨9, 50, 0⟩⟩, 102, 98, 101⟩] 1
      (by simp) (by decide)
  rw [heq]
  rfl

/-! ### Claim C4 -/

/-- Claim C4: the 5-minute intraday ATR is
`atr_daily * sqrt(5/390) * f(t)` where `f` is the piecewise
time-of-day multiplier; `f` depends only on the local time of day, not
on the date, and on valid wall-clock times its pieces are exactly
`1.4` before 10:00, `1.15` on [10:00, 11:00), `0.85` on [11:00, 13:00),
`1.0` on [13:00, 14:30) and `1.3` from 14:30 on (windows stated here in
seconds since midnight). -/
theorem atr_5m_scaling_and_tod :
    (∀ (a : ℚ) (ts : Timestamp),
        atr_5m_from_daily a ts =
          (a : ℝ) * Real.sqrt (5 / 390) * (intraday_tod_factor ts : ℝ)) ∧
    (∀ (d₁ d₂ : ℤ) (t : TimeOfDay),
        intraday_tod_factor ⟨d₁, t⟩ = intraday_tod_factor ⟨d₂, t⟩) ∧
    (∀ ts : Timestamp, ts.time.minute < 60 → ts.time.second < 60 →
        intraday_tod_factor ts =
          if ts.time.toSeconds < 36000 then 1.4
          else if ts.time.toSeconds < 39600 then 1.15
          else if ts.time.toSeconds < 46800 then 0.85
          else if ts.time.toSeconds < 52200 then 1.0
          else 1.3) := by
  refine ⟨fun a ts => rfl, fun d₁ d₂ t => rfl, ?_⟩
  rintro ⟨d, h, m, s⟩ hm hs
  simp only [intraday_tod_factor, TimeOfDay.lexLt, TimeOfDay.toSeconds] at *
  split_ifs <;> first | rfl | (exfalso; omega)

/-- Witness for C4: at 09:45 local time the factor is the opening value
`1.4`, independent of the 36000-second boundary arithmetic. -/
theorem atr_5m_scaling_and_tod_witness :
    (45 < 60 ∧ 0 < 60) ∧ intraday_tod_factor ⟨0, ⟨9, 45, 0⟩⟩ = 1.4 :=
  ⟨⟨by decide, by decide⟩, by
    have h := atr_5m_scaling_and_tod.2.2 ⟨0, ⟨9, 45, 0⟩⟩ (by decide) (by decide)
    simpa [TimeOfDay.toSeconds] using h⟩

/-! ### Claim C5 -/

/-- Claim C5 as stated is false on the code: a single-bar daily series
is not rejected by the composed entry point — together with two
intraday bars it produces a result, not `None` (only `daily.empty`,
`intra.empty` and `len(intra) < 2` are guarded). -/
theorem single_bar_daily_stops_counterexample :
    compute_example_stops [(⟨10, 4, 7⟩ : Bar)]
      [⟨⟨0, ⟨9, 45, 0⟩⟩, 101, 99, 100⟩, ⟨⟨0, ⟨9, 50, 0⟩⟩, 102, 98, 101⟩] (7 / 10) ≠
        none := by
  obtain ⟨bar, atrd, hbar, hatr, heq⟩ :=
    compute_example_stops_some [(⟨10, 4, 7⟩ : Bar)]
      [⟨⟨0, ⟨9, 45, 0⟩⟩, 101, 99, 100⟩, ⟨⟨0, ⟨9, 50, 0⟩⟩, 102, 98, 101⟩] (7 / 10)
      (by simp) (by decide)
  rw [heq]
  simp

/-- Claim C5, amended: the composed entry point returns `None` exactly
when the daily series is empty or the intraday series has fewer than 2
bars (which covers the empty and the single-bar intraday cases); no
exception escapes (the function is total over its `Option` result).  A
single-bar daily series is accepted and yields a result. -/
theorem compute_example_stops_none_iff (daily : List Bar) (intra : List IBar) (k : ℝ) :
    compute_example_stops daily intra k = none ↔ daily = [] ∨ intra.length < 2 := by
  constructor
  · intro h
    by_contra hc
    push_neg at hc
    obtain ⟨hd, hlen⟩ := hc
    obtain ⟨bar, atrd, hbar, hatr, heq⟩ :=
      compute_example_stops_some daily intra k hd (by omega)
    rw [heq] at h
    cases h
  · rintro (rfl | h2)
    · rfl
    · cases daily with
      | nil => rfl
      | cons b tl =>
        cases intra with
        | nil => rfl
        | cons i ir =>
          simp only [List.length_cons] at h2
          simp [compute_example_stops, compute_atr_cons]
          intro hlen
          exfalso
          omega

/-! ### Claim C6 (spec-modelled share counts) -/

/-- The spec-modelled share-count field is present exactly when a
strictly positive dollar-risk budget was supplied and the stop distance
is strictly positive. -/
theorem sharesFor_isSome_iff (risk : Option ℝ) (dist : ℝ) :
    (sharesFor risk dist).isSome = true ↔ ∃ m, risk = some m ∧ 0 < m ∧ 0 < dist := by
  cases risk with
  | none => simp [sharesFor]
  | some r =>
    simp only [sharesFor]
    split_ifs with h
    · simp only [Option.isSome_some, true_iff]
      exact ⟨r, rfl, h.1, h.2⟩
    · simp only [Option.isSome_none, Bool.false_eq_true, false_iff]
      rintro ⟨m, hm, hm0, hd0⟩
      cases hm
      exact h ⟨hm0, hd0⟩

/-- The spec-modelled share count equals `dollar_risk / dist` when both
positivity conditions hold. -/
theorem sharesFor_eq_div (m dist : ℝ) (hm : 0 < m) (hd : 0 < dist) :
    sharesFor (some m) dist = some (m / dist) := by
  simp [sharesFor, hm, hd]

/-- Unfolding lemma for the spec-modelled composed operation: the risk
wrapper maps over the code's result, attaching the two share-count
fields. -/
theorem compute_example_stops_with_risk_eq (daily : List Bar) (intra : List IBar)
    (k : ℝ) (risk : Option ℝ) (res : StopResult)
    (h : compute_example_stops daily intra k = some res) :
    compute_example_stops_with_risk daily intra k risk = some
      { base := res, dollar_risk := risk,
        shares_long := sharesFor risk res.dist_long,
        shares_short := sharesFor risk res.dist_short } := by
  rw [compute_example_stops_with_risk, h]
  rfl

/-- Claim C6 (spec-modelled): in every produced stop/risk result the
share-count fields are present iff a strictly positive dollar-risk
budget was supplied and the corresponding stop distance is strictly
positive, in which case `shares = dollar_risk / dist`; otherwise the
field is absent (`none`), never zero. -/
theorem shares_present_iff (daily : List Bar) (intra : List IBar) (k : ℝ)
    (risk : Option ℝ) (hd : daily ≠ []) (h2 : 2 ≤ intra.length) :
    ∃ r, compute_example_stops_with_risk daily intra k risk = some r ∧
      ((r.shares_long.isSome = true ↔ ∃ m, risk = some m ∧ 0 < m ∧ 0 < r.base.dist_long) ∧
        ∀ m, risk = some m → 0 < m → 0 < r.base.dist_long →
          r.shares_long = some (m / r.base.dist_long)) ∧
      ((r.shares_short.isSome = true ↔ ∃ m, risk = some m ∧ 0 < m ∧ 0 < r.base.dist_short) ∧
        ∀ m, risk = some m → 0 < m → 0 < r.base.dist_short →
          r.shares_short = some (m / r.base.dist_short)) := by
  obtain ⟨bar, atrd, hbar, hatr, heq⟩ := compute_example_stops_some daily intra k hd h2
  refine ⟨_, compute_example_stops_with_risk_eq daily intra k risk _ heq, ⟨?_, ?_⟩, ⟨?_, ?_⟩⟩
  · exact sharesFor_isSome_iff risk _
  · rintro m rfl hm hd0
    exact sharesFor_eq_div m _ hm hd0
  · exact sharesFor_isSome_iff risk _
  · rintro m rfl hm hd0
    exact sharesFor_eq_div m _ hm hd0

/-- Witness for C6 at concrete inputs with a positive dollar-risk
budget supplied. -/
theorem shares_present_iff_witness :
    (compute_example_stops_with_risk [(⟨10, 4, 7⟩ : Bar)]
      [⟨⟨0, ⟨10, 15, 0⟩⟩, 101, 99, 100⟩, ⟨⟨0, ⟨10, 20, 0⟩⟩, 102, 98, 101⟩] 1
      (some 100)).isSome = true := by
  obtain ⟨r, heq, hrest⟩ :=
    shares_present_iff [(⟨10, 4, 7⟩ : Bar)]
      [⟨⟨0, ⟨10, 15, 0⟩⟩, 101, 99, 100⟩, ⟨⟨0, ⟨10, 20, 0⟩⟩, 102, 98, 101⟩] 1
      (some 100) (by simp) (by decide)
  rw [heq]
  rfl

/-! ### Claim C7 -/

/-- Claim C7: whenever the selected bar satisfies
`low ≤ close ≤ high`, the intraday ATR is nonnegative and `k ≥ 0`, the
two stop distances are each at least the `k * atr_5m` component. -/
theorem stop_distances_ge_atr_component (daily : List Bar) (intra : List IBar) (k : ℝ)
    (hd : daily ≠ []) (h2 : 2 ≤ intra.length) (_hk : 0 ≤ k) :
    ∃ res, compute_example_stops daily intra k = some res ∧
      (res.swing_low ≤ res.entry_price → 0 ≤ res.atr_5m →
        k * res.atr_5m ≤ res.dist_long) ∧
      (res.entry_price ≤ res.swing_high → 0 ≤ res.atr_5m →
        k * res.atr_5m ≤ res.dist_short) := by
  obtain ⟨bar, atrd, hbar, hatr, heq⟩ := compute_example_stops_some daily intra k hd h2
  refine ⟨_, heq, ?_, ?_⟩
  · intro hle _
    have hc : (bar.low : ℝ) ≤ (bar.close : ℝ) := by exact_mod_cast hle
    show k * atr_5m_from_daily atrd bar.ts ≤
      (bar.close : ℝ) - ((bar.low : ℝ) - k * atr_5m_from_daily atrd bar.ts)
    linarith
  · intro hle _
    have hc : (bar.close : ℝ) ≤ (bar.high : ℝ) := by exact_mod_cast hle
    show k * atr_5m_from_daily atrd bar.ts ≤
      ((bar.high : ℝ) + k * atr_5m_from_daily atrd bar.ts) - (bar.close : ℝ)
    linarith

/-- Witness for C7 at concrete inputs with `k = 1 ≥ 0` and a selected
bar satisfying `low ≤ close ≤ high`. -/
theorem stop_distances_ge_atr_component_witness :
    (compute_example_stops [(⟨10, 4, 7⟩ : Bar)]
      [⟨⟨0, ⟨11, 30, 0⟩⟩, 101, 99, 100⟩, ⟨⟨0, ⟨11, 35, 0⟩⟩, 102, 98, 101⟩] 1).isSome
      = true := by
  obtain ⟨res, heq, hrest⟩ :=
    stop_distances_ge_atr_component [(⟨10, 4, 7⟩ : Bar)]
      [⟨⟨0, ⟨11, 30, 0⟩⟩, 101, 99, 100⟩, ⟨⟨0, ⟨11, 35, 0⟩⟩, 102, 98, 101⟩] 1
      (by simp) (by decide) (by norm_num)
  rw [heq]
  rfl

/-! ### Claim C8 -/

/-- Claim C8: for a daily series with at least 2 bars, each with
`low ≤ high`, the returned ATR is nonnegative (finiteness is inherent
to this exact-arithmetic model: every value of `ℚ` is finite, and no
`NaN`/`inf` can arise from finite inputs).  Stated for any smoothing
period `≥ 1`, which covers the code's `period = 14`. -/
theorem atr_nonneg (period : ℕ) (hp : 1 ≤ period) (daily : List Bar)
    (h2 : 2 ≤ daily.length) (hb : ∀ b ∈ daily, b.low ≤ b.high) :
    ∃ a, compute_atr daily period = some a ∧ 0 ≤ a := by
  cases daily with
  | nil => simp at h2
  | cons b tl =>
    refine ⟨_, compute_atr_cons b tl period, ?_⟩
    have hden : (0 : ℚ) < (period : ℚ) + 1 := by positivity
    have halpha0 : (0 : ℚ) ≤ 2 / ((period : ℚ) + 1) := by positivity
    have halpha1 : 2 / ((period : ℚ) + 1) ≤ 1 := by
      rw [div_le_one hden]
      have : (1 : ℚ) ≤ (period : ℚ) := by exact_mod_cast hp
      linarith
    apply ewmaLast_nonneg _ halpha0 halpha1
    · have := hb b (List.mem_cons_self b tl)
      linarith
    · exact zipWith_rowTR_nonneg tl _ fun y hy => hb y (List.mem_cons_of_mem b hy)

/-- Witness for C8 at a concrete two-bar series. -/
theorem atr_nonneg_witness :
    (1 ≤ 14 ∧ 2 ≤ ([(⟨2, 1, 1⟩ : Bar), ⟨3, 1, 2⟩] : List Bar).length) ∧
      ∃ a, compute_atr [(⟨2, 1, 1⟩ : Bar), ⟨3, 1, 2⟩] 14 = some a ∧ 0 ≤ a :=
  ⟨⟨by decide, by decide⟩,
    atr_nonneg 14 (by decide) [(⟨2, 1, 1⟩ : Bar), ⟨3, 1, 2⟩] (by decide) (by decide)⟩

/-! ### Claim C9 -/

/-- Claim C9: the ATR is monotone non-decreasing in the true-range
inputs — for two daily series of equal length whose per-bar true-range
series compare pointwise, the resulting ATRs compare the same way.
Stated for any smoothing period `≥ 1` (the code uses 14), which makes
the EWMA weight lie in `[0, 1]`. -/
theorem atr_monotone_in_tr (period : ℕ) (hp : 1 ≤ period) (d d' : List Bar)
    (_hlen : d.length = d'.length)
    (hmono : List.Forall₂ (· ≤ ·) (trSeries d) (trSeries d'))
    (a a' : ℚ) (ha : compute_atr d period = some a)
    (ha' : compute_atr d' period = some a') : a ≤ a' := by
  have hden : (0 : ℚ) < (period : ℚ) + 1 := by positivity
  have halpha0 : (0 : ℚ) ≤ 2 / ((period : ℚ) + 1) := by positivity
  have halpha1 : 2 / ((period : ℚ) + 1) ≤ 1 := by
    rw [div_le_one hden]
    have : (1 : ℚ) ≤ (period : ℚ) := by exact_mod_cast hp
    linarith
  unfold compute_atr at ha ha'
  rcases hu : trSeries d with _ | ⟨t, rest⟩
  · rw [hu] at ha
    cases ha
  rcases hv : trSeries d' with _ | ⟨u, rest'⟩
  · rw [hv] at ha'
    cases ha'
  rw [hu] at ha
  rw [hv] at ha'
  rw [hu, hv] at hmono
  cases ha
  cases ha'
  cases hmono with
  | cons hhead htail => exact ewmaLast_mono _ halpha0 halpha1 htail t u hhead

/-- Witness for C9: the two series coincide, the pointwise TR bound is
reflexivity, and the resulting ATRs coincide. -/
theorem atr_monotone_in_tr_witness :
    1 ≤ 14 ∧ ((1 : ℚ) - 0) ≤ ((1 : ℚ) - 0) :=
  ⟨by decide,
    atr_monotone_in_tr 14 (by decide) [(⟨1, 0, 0⟩ : Bar)] [(⟨1, 0, 0⟩ : Bar)] rfl
      (List.forall₂_same.mpr fun x _ => le_refl x) _ _ rfl rfl⟩

/-! ### Claim C10 -/

/-- Claim C10: in every produced result the two stop distances sum to
the selected bar's high-low range plus twice the `k * atr_5m`
component; the entry price cancels. -/
theorem dist_sum_identity (daily : List Bar) (intra : List IBar) (k : ℝ)
    (hd : daily ≠ []) (h2 : 2 ≤ intra.length) :
    ∃ res, compute_example_stops daily intra k = some res ∧
      res.dist_long + res.dist_short =
        ((res.swing_high : ℝ) - (res.swing_low : ℝ)) + 2 * k * res.atr_5m := by
  obtain ⟨bar, atrd, hbar, hatr, heq⟩ := compute_example_stops_some daily intra k hd h2
  refine ⟨_, heq, ?_⟩
  show ((bar.close : ℝ) - ((bar.low : ℝ) - k * atr_5m_from_daily atrd bar.ts)) +
      (((bar.high : ℝ) + k * atr_5m_from_daily atrd bar.ts) - (bar.close : ℝ)) =
    ((bar.high : ℝ) - (bar.low : ℝ)) + 2 * k * atr_5m_from_daily atrd bar.ts
  ring

/-- Witness for C10 at concrete inputs. -/
theorem dist_sum_identity_witness :
    (compute_example_stops [(⟨10, 4, 7⟩ : Bar)]
      [⟨⟨0, ⟨13, 30, 0⟩⟩, 101, 99, 100⟩, ⟨⟨0, ⟨13, 35, 0⟩⟩, 102, 98, 101⟩] 2).isSome
      = true := by
  obtain ⟨res, heq, hsum⟩ :=
    dist_sum_identity [(⟨10, 4, 7⟩ : Bar)]
      [⟨⟨0, ⟨13, 30, 0⟩⟩, 101, 99, 100⟩, ⟨⟨0, ⟨13, 35, 0⟩⟩, 102, 98, 101⟩] 2
      (by simp) (by decide)
  rw [heq]
  rfl

end AtrApp
